import Mathlib

/-!
Shallow embedding of `zfssync.py` (stblassitude/zfssync).

The script replicates ZFS snapshots between hosts.  External effects
(running `zfs` commands locally or over ssh) are modelled by a `World`
value: the per-host `zfs list` output is a pure function of the host
name, and the success of side-effecting commands is an oracle.  The
process-wide registries (`Zfspool.pools`, `Zfspool.hostDatasets`,
`Zfspool.hostSnapshots`, `ZfsDataset.datasets`) become an explicit
state record `St` threaded through the functions.

The single Python exception class `ZfssyncException` is refined into an
inductive `Err` with one constructor per raise site; the names follow
the error taxonomy of the documentation (SpecificationError for
`invalidSpec`, `poolAndHost`, `differentPools`; NotFoundError for
`noSuchDataset`; PreconditionError for `needSnapshot`; DivergenceError
for `notInSource`; Transport/TransferError for `commandFailed`,
`pipeFailed`).
-/

namespace Zfssync

/-- `localhost = 'localhost'` in the source: the reserved local host. -/
def localhost : String := "localhost"

/-- The external world: what `zfs list -Honame` and
`zfs list -tsnapshot -Honame` print on each host, whether a
side-effecting command succeeds (exit status 0), and the timestamp label
`datetime.utcnow().strftime(%Y%m%d%H%M)` used by `--snapshot`. -/
structure World where
  listDatasets : String → List String
  listSnapshots : String → List String
  execOk : String → List String → Bool
  pipeOk : String → List String → String → List String → Bool
  nowLabel : String

/-- Python `str.startswith`, character by character.  (The byte-position
based `String.startsWith` of core Lean is avoided so that concrete terms
reduce inside the kernel.) -/
def strStartsWith (s pre : String) : Bool := pre.data.isPrefixOf s.data

/-- Python slicing `s[n:]`, character by character. -/
def strDrop (s : String) (n : Nat) : String := ⟨s.data.drop n⟩

/-- Association-list lookup, modelling Python dict indexing. -/
def alookup {α : Type} (k : String) : List (String × α) → Option α
  | [] => none
  | (k', v) :: l => if k' = k then some v else alookup k l

/-- Association-list update, modelling Python dict assignment. -/
def aset {α : Type} (k : String) (v : α) : List (String × α) → List (String × α)
  | [] => [(k, v)]
  | (k', v') :: l => if k' = k then (k, v) :: l else (k', v') :: aset k v l

/-- Mirror of class `Zfspool`: a pool on one host, with the subsets of
the host listings whose names are prefixed by the pool name (the
instance attributes `datasets` and `snapshots` set by `updateDatasets`
and `updateSnapshots`). -/
structure Zfspool where
  host : String
  name : String
  datasets : List String
  snapshots : List String
deriving DecidableEq, Repr

/-- Mirror of class `ZfsDataset`: a path inside a pool plus the cached
list of its own snapshot full-names.  Pools are immutable after
construction in the source, so holding the pool by value is faithful. -/
structure ZfsDataset where
  pool : Zfspool
  path : String
  snapshots : List String
deriving DecidableEq, Repr

/-- `self.dataset = self.pool.name + self.path`. -/
def ZfsDataset.dataset (d : ZfsDataset) : String := d.pool.name ++ d.path

/-- `ZfsDataset.__str__`: the fully qualified form `host:pool/path`,
which also defines equality, hashing and ordering of datasets. -/
def ZfsDataset.str (d : ZfsDataset) : String :=
  d.pool.host ++ ":" ++ d.pool.name ++ d.path

/-- The process-wide mutable registries of the script, as explicit
state: the class attributes `Zfspool.hostDatasets`,
`Zfspool.hostSnapshots`, `Zfspool.pools` and `ZfsDataset.datasets`. -/
structure St where
  hostDatasets : List (String × List String)
  hostSnapshots : List (String × List String)
  pools : List (String × Zfspool)
  datasets : List (String × ZfsDataset)
deriving DecidableEq, Repr

def St.empty : St := ⟨[], [], [], []⟩

/-- `Zfspool.updateHost`: fetch and cache both per-host listings. -/
def updateHostFn (w : World) (host : String) (st : St) : St :=
  { st with
    hostDatasets := aset host (w.listDatasets host) st.hostDatasets,
    hostSnapshots := aset host (w.listSnapshots host) st.hostSnapshots }

/-- `Zfspool.__init__`: run `updateDatasets` then `updateSnapshots`,
each fetching the host listings once if not already cached, and filter
them by the pool-name prefix. -/
def mkZfspool (w : World) (name host : String) (st : St) : Zfspool × St :=
  let st1 := if (alookup host st.hostDatasets).isSome then st else updateHostFn w host st
  let ds := ((alookup host st1.hostDatasets).getD []).filter (fun s => strStartsWith s name)
  let st2 := if (alookup host st1.hostSnapshots).isSome then st1 else updateHostFn w host st1
  let ss := ((alookup host st2.hostSnapshots).getD []).filter (fun s => strStartsWith s name)
  (⟨host, name, ds, ss⟩, st2)

/-- `getZfsPool`: factory memoised on the string `host ++ ":" ++ pool`. -/
def getZfsPool (w : World) (host pool : String) (st : St) : Zfspool × St :=
  let hostpool := host ++ ":" ++ pool
  match alookup hostpool st.pools with
  | some p => (p, st)
  | none =>
      let (p, st1) := mkZfspool w pool host st
      (p, { st1 with pools := aset hostpool p st1.pools })

/-- Split a character list at the first occurrence of `c`; `none` when
`c` does not occur. -/
def splitFirst (c : Char) : List Char → Option (List Char × List Char)
  | [] => none
  | d :: l =>
    if d = c then some ([], l)
    else
      match splitFirst c l with
      | none => none
      | some (a, b) => some (d :: a, b)

/-- The `(?P<pool>[^/]+)(?P<path>/.*)?$` part of `ZfsDataset.specpattern`
under Python re semantics: the pool is the longest nonempty prefix
without a slash; the path, if present, starts with a slash and cannot
cross a newline (`.` excludes it), and `$` accepts either the end of the
string or a position before one final trailing newline. -/
def parsePoolPath (l : List Char) : Option (String × String) :=
  let p := l.takeWhile (fun c => c ≠ '/')
  let rest := l.dropWhile (fun c => c ≠ '/')
  if p.isEmpty then none
  else
    match rest with
    | [] => some (⟨p⟩, "")
    | _ =>
        match splitFirst '\n' rest with
        | none => some (⟨p⟩, ⟨rest⟩)
        | some (a, b) => if b.isEmpty then some (⟨p⟩, ⟨a⟩) else none

def parseNoHost (l : List Char) : Option (Option String × String × String) :=
  (parsePoolPath l).map (fun pp => (none, pp.1, pp.2))

/-- `ZfsDataset.specpattern.match`: the optional host group
`(?:(?P<host>[^:]+):)?` is tried first (the host, when taken, is the
nonempty prefix before the first colon), falling back to a hostless
parse when its continuation fails.  Returns (host group, pool group,
path group with absent mapped to the empty string). -/
def parseSpec (s : String) : Option (Option String × String × String) :=
  match splitFirst ':' s.data with
  | some (h, rest) =>
      if h.isEmpty then parseNoHost s.data
      else
        match parsePoolPath rest with
        | some pp => some (some ⟨h⟩, pp.1, pp.2)
        | none => parseNoHost s.data
  | none => parseNoHost s.data

/-- The `ZfssyncException` raise sites, one constructor each. -/
inductive Err where
  | invalidSpec (spec : String)
  | poolAndHost (host : String)
  | differentPools (poolName specPool : String)
  | noSuchDataset (host dataset : String)
  | needSnapshot (src : String)
  | notInSource (snapId src : String)
  | commandFailed (host : String) (cmd : List String)
  | pipeFailed (hosta : String) (cmda : List String) (hostb : String) (cmdb : List String)
deriving DecidableEq, Repr

/-- `ZfsDataset.__init__`: derive the full name and collect the pool
snapshots prefixed by `dataset ++ "@"`. -/
def mkZfsDataset (pl : Zfspool) (path : String) : ZfsDataset :=
  ⟨pl, path, pl.snapshots.filter (fun s => strStartsWith s (pl.name ++ path ++ "@"))⟩

/-- Tail of `getZfsDataset`: return the dataset memoised under the full
specification string, creating it once. -/
def finishGet (spec : String) (pl : Zfspool) (path : String) (st : St) :
    Except Err (ZfsDataset × St) :=
  match alookup spec st.datasets with
  | some d => .ok (d, st)
  | none =>
      let d := mkZfsDataset pl path
      .ok (d, { st with datasets := aset spec d st.datasets })

/-- `getZfsDataset(spec, pool=None)`: parse the specification, check the
pool-argument conflicts, resolve or reuse the pool, and memoise the
dataset by specification string. -/
def getZfsDataset (w : World) (spec : String) (pool? : Option Zfspool) (st : St) :
    Except Err (ZfsDataset × St) :=
  match parseSpec spec with
  | none => .error (.invalidSpec spec)
  | some (host?, poolName, path) =>
    match pool? with
    | some pl =>
        if host?.isSome then .error (.poolAndHost (host?.getD ""))
        else if pl.name ≠ poolName then .error (.differentPools pl.name poolName)
        else finishGet spec pl path st
    | none =>
        let host := host?.getD localhost
        let (pl, st1) := getZfsPool w host poolName st
        finishGet spec pl path st1

/-! ## Shell glob matching (`fnmatch.fnmatch`)

On a POSIX platform `fnmatch` normalises nothing and compiles the
pattern with `*` matching any sequence, `?` any single character, and
bracket expressions with ranges and `!`-negation; matching is against
the entire name (`\Z`-anchored, `.` in dot-all mode).  The pattern is
tokenised in one pass; an unclosed `[` is a literal. -/

inductive Tok where
  | star
  | one
  | set (neg : Bool) (items : List Char)
  | lit (c : Char)
deriving DecidableEq, Repr

/-- Scan a bracket expression after the opening `[`, per
`fnmatch.translate`: an optional leading `!`, then an optional literal
`]`, then everything up to the next `]`.  `none` when no closing `]`
exists (the `[` is then a literal). -/
def bracketSplit (ps : List Char) : Option (Bool × List Char × List Char) :=
  let negps1 : Bool × List Char :=
    match ps with
    | '!' :: r => (true, r)
    | r => (false, r)
  let preps2 : List Char × List Char :=
    match negps1.2 with
    | ']' :: r => ([']'], r)
    | r => ([], r)
  match splitFirst ']' preps2.2 with
  | none => none
  | some (stuff, rest) => some (negps1.1, preps2.1 ++ stuff, rest)

/-- Tokenise a glob pattern.  The fuel argument is the length of the
input; every step consumes at least one character, so the fuel never
runs out when the function is applied through `tokenizePat`. -/
def tokenizeF : Nat → List Char → List Tok
  | 0, _ => []
  | _ + 1, [] => []
  | n + 1, '*' :: ps => .star :: tokenizeF n ps
  | n + 1, '?' :: ps => .one :: tokenizeF n ps
  | n + 1, '[' :: ps =>
      (match bracketSplit ps with
       | none => .lit '[' :: tokenizeF n ps
       | some (neg, items, rest) => .set neg items :: tokenizeF n rest)
  | n + 1, c :: ps => .lit c :: tokenizeF n ps

def tokenizePat (p : String) : List Tok := tokenizeF p.length p.data

/-- Bracket-expression membership: items are single characters or
`a-b` ranges (a reversed range matches nothing, as in
`fnmatch.translate`, which deletes empty ranges). -/
def setMatch : List Char → Char → Bool
  | a :: '-' :: b :: rest, c => (a ≤ c && c ≤ b) || setMatch rest c
  | a :: rest, c => (a == c) || setMatch rest c
  | [], _ => false

/-- Does `f` hold of some suffix of the list?  This is the semantics of
a regex `.*` prefix in dot-all mode. -/
def anySuffix (f : List Char → Bool) : List Char → Bool
  | [] => f []
  | c :: ts => f (c :: ts) || anySuffix f ts

/-- Match a tokenised pattern against the whole character list. -/
def matchToks : List Tok → List Char → Bool
  | [], t => t.isEmpty
  | .star :: ps, t => anySuffix (matchToks ps) t
  | .one :: ps, t =>
      (match t with
       | [] => false
       | _ :: ts => matchToks ps ts)
  | .set neg items :: ps, t =>
      (match t with
       | [] => false
       | d :: ts => (neg != setMatch items d) && matchToks ps ts)
  | .lit c :: ps, t =>
      (match t with
       | [] => false
       | d :: ts => (c == d) && matchToks ps ts)

/-- `fnmatch.fnmatch(name, pat)` on a POSIX platform. -/
def fnmatch (name pat : String) : Bool :=
  matchToks (tokenizePat pat) name.data

/-! ## Source sets, destination, snapshot creation and sync -/

/-- Mirror of class `Source`: the resolved root dataset (`self.spec`)
and the expanded set of datasets.  A Python set of `ZfsDataset` objects
deduplicates by `__eq__`, which compares `str(self)`; the model keeps
insertion order as a list of (registry key, qualified string) pairs with
that deduplication applied on insert. -/
structure Source where
  root : ZfsDataset
  datasets : List (String × String)
deriving DecidableEq, Repr

/-- `self.datasets.add(entity)`: no-op when an entity with the same
qualified string is already present. -/
def addDS (l : List (String × String)) (k : String) (d : ZfsDataset) :
    List (String × String) :=
  if d.str ∈ l.map Prod.snd then l else l ++ [(k, d.str)]

/-- The glob branch of `Source.__init__`: iterate the pool listing and
add each name matching the pattern, resolving it against the pool. -/
def globExpand (w : World) (p : Zfspool) (pat : String) :
    List String → List (String × String) → St → Except Err (List (String × String) × St)
  | [], acc, st => .ok (acc, st)
  | s :: rest, acc, st =>
      if fnmatch s pat then
        match getZfsDataset w s (some p) st with
        | .error e => .error e
        | .ok (d, st') => globExpand w p pat rest (addDS acc s d) st'
      else globExpand w p pat rest acc st

/-- Inner loop of the recursive branch: add every pool listing entry
prefixed by `dsname ++ "/"`. -/
def recurseOne (w : World) (p : Zfspool) (dsname : String) :
    List String → List (String × String) → St → Except Err (List (String × String) × St)
  | [], acc, st => .ok (acc, st)
  | s :: rest, acc, st =>
      if strStartsWith s (dsname ++ "/") then
        match getZfsDataset w s (some p) st with
        | .error e => .error e
        | .ok (d, st') => recurseOne w p dsname rest (addDS acc s d) st'
      else recurseOne w p dsname rest acc st

/-- The recursive branch of `Source.__init__`: for every dataset in a
copy of the current set, add all its strict descendants. -/
def recurseExpand (w : World) (p : Zfspool) :
    List (String × String) → List (String × String) → St →
    Except Err (List (String × String) × St)
  | [], acc, st => .ok (acc, st)
  | (k, _) :: restCopy, acc, st =>
      let dsname :=
        match alookup k st.datasets with
        | some d => d.dataset
        | none => ""
      match recurseOne w p dsname p.datasets acc st with
      | .error e => .error e
      | .ok (acc', st') => recurseExpand w p restCopy acc' st'

/-- `Source.__init__(spec, glob, recursive)`. -/
def mkSource (w : World) (spec : String) (glob recursive : Bool) (st : St) :
    Except Err (Source × St) :=
  match getZfsDataset w spec none st with
  | .error e => .error e
  | .ok (root, st1) =>
    let p := root.pool
    let init : Except Err (List (String × String) × St) :=
      if glob then globExpand w p root.dataset p.datasets [] st1
      else if root.dataset ∈ p.datasets then .ok (addDS [] spec root, st1)
      else .error (.noSuchDataset p.host root.dataset)
    match init with
    | .error e => .error e
    | .ok (l, st2) =>
      if recursive then
        match recurseExpand w p l l st2 with
        | .error e => .error e
        | .ok (l', st3) => .ok (⟨root, l'⟩, st3)
      else .ok (⟨root, l⟩, st2)

/-- Mirror of class `Destination`: one resolved root dataset. -/
structure Destination where
  destination : ZfsDataset
deriving DecidableEq, Repr

def mkDestination (w : World) (spec : String) (st : St) :
    Except Err (Destination × St) :=
  match getZfsDataset w spec none st with
  | .error e => .error e
  | .ok (d, st') => .ok (⟨d⟩, st')

/-- The specification string rebuilt by `Destination.targetpath`:
destination host, destination pool name, source path. -/
def targetpathSpec (dst : Destination) (d : ZfsDataset) : String :=
  dst.destination.pool.host ++ ":" ++ dst.destination.pool.name ++ d.path

/-- `Destination.targetpath(dataset)`. -/
def targetpath (w : World) (dst : Destination) (d : ZfsDataset) (st : St) :
    Except Err (ZfsDataset × St) :=
  getZfsDataset w (targetpathSpec dst d) none st

/-- A command issued through the Command Runner: `shellExec` on one
host, or `shellPipe` between two hosts. -/
inductive Event where
  | run (host : String) (cmd : List String)
  | pipe (hosta : String) (cmda : List String) (hostb : String) (cmdb : List String)
deriving DecidableEq, Repr

/-- Result of one orchestrated step: the state after its effects, the
commands it issued, and the exception it raised, if any (the state and
events up to the raise are kept, as the Python mutations persist when
the exception propagates). -/
structure StepRes where
  st : St
  events : List Event
  err : Option Err
deriving DecidableEq, Repr

/-- Lexicographic order on character lists: Python compares strings by
code points.  (The iterator-based `String.decidableLT` of core Lean is
avoided so that concrete terms reduce inside the kernel.) -/
def charsLe : List Char → List Char → Bool
  | [], _ => true
  | _ :: _, [] => false
  | a :: as, b :: bs => a < b || (a == b && charsLe as bs)

/-- Python `a <= b` on strings. -/
def strLe (a b : String) : Bool := charsLe a.data b.data

/-- Insertion into a list sorted by the second component (the qualified
dataset string). -/
def insertByStr (x : String × String) : List (String × String) → List (String × String)
  | [] => [x]
  | y :: l => if strLe x.2 y.2 then x :: y :: l else y :: insertByStr x l

/-- `sorted(source.datasets)`: datasets are ordered by their qualified
string form (`@total_ordering` over `__gt__` on `str(self)`); the
elements have pairwise distinct strings, so any correct sort produces
the unique ascending sequence Python would. -/
def sortByStr : List (String × String) → List (String × String)
  | [] => []
  | x :: l => insertByStr x (sortByStr l)

/-- `srcds.snapshots.append(s)`: extend the registered entity of key
`k` by the freshly created snapshot name. -/
def stAppend (st : St) (k : String) (d : ZfsDataset) (s : String) : St :=
  { st with datasets := aset k { d with snapshots := d.snapshots ++ [s] } st.datasets }

/-- Loop body of `Destination.createsnapshots`: NOTE the source returns
from the whole loop (not `continue`) when the snapshot already exists on
the dataset under consideration. -/
def csLoop (w : World) (label : String) : List (String × String) → St → StepRes
  | [], st => ⟨st, [], none⟩
  | (k, _) :: rest, st =>
      match alookup k st.datasets with
      | none => ⟨st, [], none⟩
      | some d =>
        let s := d.dataset ++ "@" ++ label
        if s ∈ d.snapshots then ⟨st, [], none⟩
        else
          let cmd := ["zfs", "snapshot", s]
          if w.execOk d.pool.host cmd then
            let r := csLoop w label rest (stAppend st k d s)
            ⟨r.st, .run d.pool.host cmd :: r.events, r.err⟩
          else ⟨st, [.run d.pool.host cmd], some (.commandFailed d.pool.host cmd)⟩

/-- `Destination.createsnapshots(source, snapshot)`. -/
def createsnapshots (w : World) (src : Source) (label : String) (st : St) : StepRes :=
  csLoop w label (sortByStr src.datasets) st

/-- `ds.snapshots[-1]`: the last-listed (most recent) snapshot. -/
def latestSnap (ds : ZfsDataset) : String := (ds.snapshots.getLast?).getD ""

/-- `s[len(ds.dataset)+1:]`: the identifier suffix of a snapshot
full-name, extracted by position as in the source. -/
def snapIdAfter (ds : ZfsDataset) (s : String) : String :=
  strDrop s (ds.dataset.length + 1)

/-- `Destination.relativesnapshots(srcds, dstds)`: the baseline
computation. -/
def relativesnapshots (srcds dstds : ZfsDataset) : Except Err (Option String) :=
  if srcds.snapshots.length < 1 then .error (.needSnapshot srcds.str)
  else if dstds.snapshots.length < 1 then .ok none
  else
    let latestDstSnapId := snapIdAfter dstds (latestSnap dstds)
    let latestSrcSnap := srcds.dataset ++ "@" ++ latestDstSnapId
    if latestSrcSnap ∈ srcds.snapshots then .ok (some latestDstSnapId)
    else .error (.notInSource latestDstSnapId srcds.str)

/-- `Destination.sync(srcds)`: map onto the destination namespace,
compute the baseline, and issue no command, an incremental send, or a
full send.  `if startSnapId:` is Python truthiness: both `None` and the
empty string take the full-send branch. -/
def sync (w : World) (dst : Destination) (srcKey : String) (st : St) : StepRes :=
  match alookup srcKey st.datasets with
  | none => ⟨st, [], none⟩
  | some srcds =>
    match targetpath w dst srcds st with
    | .error e => ⟨st, [], some e⟩
    | .ok (dstds, st1) =>
      match relativesnapshots srcds dstds with
      | .error e => ⟨st1, [], some e⟩
      | .ok startSnapId =>
        let endSnap := latestSnap srcds
        let endSnapId := snapIdAfter srcds endSnap
        let doPipe (startcmd : List String) : StepRes :=
          let cmda := ["zfs", "send", "-p"] ++ startcmd ++ [endSnap]
          let cmdb := ["zfs", "recv", "-F", dstds.dataset]
          ⟨st1, [.pipe srcds.pool.host cmda dstds.pool.host cmdb],
           if w.pipeOk srcds.pool.host cmda dstds.pool.host cmdb then none
           else some (.pipeFailed srcds.pool.host cmda dstds.pool.host cmdb)⟩
        match startSnapId with
        | some sid =>
            if sid ≠ "" then
              if endSnapId = sid then ⟨st1, [], none⟩ else doPipe ["-I", sid]
            else doPipe []
        | none => doPipe []

/-- Result of one orchestrator phase: final state, issued commands,
logged errors, and whether the run aborted (returned 1). -/
structure PhaseRes where
  st : St
  events : List Event
  errs : List Err
  aborted : Bool
deriving DecidableEq, Repr

/-- The snapshot loop of `zfssync`: one `createsnapshots` per source,
with the continue-on-error policy. -/
def snapPhase (w : World) (label : String) (cont : Bool) :
    List Source → St → PhaseRes
  | [], st => ⟨st, [], [], false⟩
  | s :: rest, st =>
      let r := createsnapshots w s label st
      match r.err with
      | none =>
          let pr := snapPhase w label cont rest r.st
          ⟨pr.st, r.events ++ pr.events, pr.errs, pr.aborted⟩
      | some e =>
          if cont then
            let pr := snapPhase w label cont rest r.st
            ⟨pr.st, r.events ++ pr.events, e :: pr.errs, pr.aborted⟩
          else ⟨r.st, r.events, [e], true⟩

/-- The inner sync loop of `zfssync`: one `sync` per dataset of one
source, in ascending qualified-string order, with the policy applied
per dataset. -/
def syncDatasets (w : World) (dst : Destination) (cont : Bool) :
    List (String × String) → St → PhaseRes
  | [], st => ⟨st, [], [], false⟩
  | (k, _) :: rest, st =>
      let r := sync w dst k st
      match r.err with
      | none =>
          let pr := syncDatasets w dst cont rest r.st
          ⟨pr.st, r.events ++ pr.events, pr.errs, pr.aborted⟩
      | some e =>
          if cont then
            let pr := syncDatasets w dst cont rest r.st
            ⟨pr.st, r.events ++ pr.events, e :: pr.errs, pr.aborted⟩
          else ⟨r.st, r.events, [e], true⟩

/-- The outer sync loop of `zfssync`, over the source sets. -/
def syncPhase (w : World) (dst : Destination) (cont : Bool) :
    List Source → St → PhaseRes
  | [], st => ⟨st, [], [], false⟩
  | s :: rest, st =>
      let pr := syncDatasets w dst cont (sortByStr s.datasets) st
      if pr.aborted then pr
      else
        let pr2 := syncPhase w dst cont rest pr.st
        ⟨pr2.st, pr.events ++ pr2.events, pr.errs ++ pr2.errs, pr2.aborted⟩

/-- Combine the two phase results of `zfssync` into its return value:
return 1 on an abort (keeping what ran), 0 otherwise. -/
def zfssyncAssemble (p1 p2 : PhaseRes) : Nat × St × List Event × List Err :=
  if p1.aborted then (1, p1.st, p1.events, p1.errs)
  else if p2.aborted then (1, p2.st, p1.events ++ p2.events, p1.errs ++ p2.errs)
  else (0, p2.st, p1.events ++ p2.events, p1.errs ++ p2.errs)

/-- `zfssync(sources, destination, snapshot, continueOnError)`: the
orchestrator.  Returns the return code, the final state, the issued
commands, and the logged errors. -/
def zfssync (w : World) (sources : List Source) (dst : Destination)
    (snapshot cont : Bool) (st : St) : Nat × St × List Event × List Err :=
  let p1 : PhaseRes :=
    if snapshot then snapPhase w w.nowLabel cont sources st
    else ⟨st, [], [], false⟩
  zfssyncAssemble p1 (syncPhase w dst cont sources p1.st)

/-! ## Concrete fixtures

Worlds with a single populated host, used to instantiate the theorems
on concrete runs.  `setup` mirrors `main`: the destination is resolved
first, then the source, starting from empty registries. -/

def mkWorld (ds ss : List String) : World :=
  { listDatasets := fun h => if h = "localhost" then ds else [],
    listSnapshots := fun h => if h = "localhost" then ss else [],
    execOk := fun _ _ => true,
    pipeOk := fun _ _ _ _ => true,
    nowLabel := "L" }

def dfltDS : ZfsDataset := ⟨⟨"", "", [], []⟩, "", []⟩

def setup (w : World) (dspec sspec : String) (glob recursive : Bool) :
    Option (Destination × Source × St) :=
  match mkDestination w dspec St.empty with
  | .error _ => none
  | .ok (dst, st1) =>
    match mkSource w sspec glob recursive st1 with
    | .error _ => none
    | .ok (src, st2) => some (dst, src, st2)

def dfltFix : Destination × Source × St := ⟨⟨dfltDS⟩, ⟨dfltDS, []⟩, St.empty⟩

/-- Source `tank/d` with snapshots `[s1, s2]`, destination dataset
`pool2/d` with snapshots `[s1]`: the incremental scenario. -/
def w1 : World :=
  mkWorld ["pool2", "pool2/d", "tank", "tank/d"] ["pool2/d@s1", "tank/d@s1", "tank/d@s2"]

def fix1 : Destination × Source × St := (setup w1 "pool2" "tank/d" false false).getD dfltFix

/-- The resolved source dataset `tank/d` of the `w1` scenario. -/
def srcds1 : ZfsDataset := fix1.2.1.root

/-- The destination dataset `pool2/d` that `targetpath` maps `tank/d`
onto in the `w1` scenario. -/
def dstds1 : ZfsDataset :=
  match targetpath w1 fix1.1 srcds1 fix1.2.2 with
  | .ok (d, _) => d
  | .error _ => dfltDS

/-- The state produced by `targetpath` in the `w1` scenario. -/
def tgtSt1 : St :=
  match targetpath w1 fix1.1 srcds1 fix1.2.2 with
  | .ok (_, s) => s
  | .error _ => St.empty

/-- Source `tank/d` whose snapshot listing contains the degenerate name
`tank/d@` (empty identifier) followed by `tank/d@s2`; destination
dataset `pool2/d` whose only snapshot is `pool2/d@`. -/
def w2 : World :=
  mkWorld ["pool2", "pool2/d", "tank", "tank/d"] ["pool2/d@", "tank/d@", "tank/d@s2"]

def fix2 : Destination × Source × St := (setup w2 "pool2" "tank/d" false false).getD dfltFix

def srcds2 : ZfsDataset := fix2.2.1.root

def dstds2 : ZfsDataset :=
  match targetpath w2 fix2.1 srcds2 fix2.2.2 with
  | .ok (d, _) => d
  | .error _ => dfltDS

/-- Specification-side description of when `getZfsDataset` fails (per
the amended C5): no regex match, or a Pool argument together with an
embedded host (whether or not they agree), or a Pool argument whose
name differs from the pool group of the spec. -/
def resolutionFails (spec : String) (pool? : Option Zfspool) : Bool :=
  match parseSpec spec with
  | none => true
  | some (host?, poolName, _) =>
    match pool? with
    | some pl => host?.isSome || (pl.name != poolName)
    | none => false

/-- A pool for (localhost, tank) built by the factory, used to exercise
the pool-argument checks of `getZfsDataset`. -/
def pl5 : Zfspool := (getZfsPool w1 "localhost" "tank" St.empty).1

def stPl5 : St := (getZfsPool w1 "localhost" "tank" St.empty).2

/-- Source dataset `tank/d` with zero snapshots: its sync step raises
the PreconditionError. -/
def w3 : World := mkWorld ["pool2", "tank", "tank/d"] []

def fix3 : Destination × Source × St := (setup w3 "pool2" "tank/d" false false).getD dfltFix

/-- Glob source `tank/?` expanding to `{tank/a, tank/b}` where `tank/a`
already carries the snapshot label `L` and `tank/b` does not. -/
def w4 : World := mkWorld ["tank", "tank/a", "tank/b"] ["tank/a@L"]

def fix4 : Destination × Source × St := (setup w4 "pool2" "tank/?" true false).getD dfltFix

/-- Is this event a single-host command (`shellExec`)?  In a run those
are exactly the snapshot creations. -/
def Event.isRun : Event → Bool
  | .run _ _ => true
  | .pipe _ _ _ _ => false

/-- Is this event a two-host transfer (`shellPipe`)? -/
def Event.isPipe : Event → Bool
  | .run _ _ => false
  | .pipe _ _ _ _ => true

/-- Pool `tank` with the single child `tank/a` carrying one snapshot;
used with the same source specification given twice. -/
def w6 : World := mkWorld ["tank", "tank/a"] ["tank/a@s1"]

def fix6 : Destination × Source × Source × St :=
  match mkDestination w6 "pool2" St.empty with
  | .error _ => ⟨⟨dfltDS⟩, ⟨dfltDS, []⟩, ⟨dfltDS, []⟩, St.empty⟩
  | .ok (dst, st1) =>
    match mkSource w6 "tank/a" false false st1 with
    | .error _ => ⟨⟨dfltDS⟩, ⟨dfltDS, []⟩, ⟨dfltDS, []⟩, St.empty⟩
    | .ok (s1, st2) =>
      match mkSource w6 "tank/a" false false st2 with
      | .error _ => ⟨⟨dfltDS⟩, ⟨dfltDS, []⟩, ⟨dfltDS, []⟩, St.empty⟩
      | .ok (s2, st3) => ⟨dst, s1, s2, st3⟩

/-- Invariant of the pool registry: every entry is stored under the key
built from its own host and name (so distinct (host, name) pairs own
distinct entries, and one pair owns at most one entry). -/
def PoolInv (st : St) : Prop :=
  ∀ e ∈ st.pools, e.1 = e.2.host ++ ":" ++ e.2.name

instance (st : St) : Decidable (PoolInv st) :=
  List.decidableBAll _ st.pools

/-- First resolution of `tank/d` in the `w1` world from empty
registries. -/
def res1 : ZfsDataset × St :=
  match getZfsDataset w1 "tank/d" none St.empty with
  | .ok p => p
  | .error _ => (dfltDS, St.empty)

/-- World with destination pools `pool2` and `pool2/backup` and the
source `tank/d`, for the target-mapping example. -/
def w9 : World := mkWorld ["pool2", "pool2/backup", "tank", "tank/d"] []

def fix9a : Destination × Source × St := (setup w9 "pool2" "tank/d" false false).getD dfltFix

def fix9b : Destination × Source × St :=
  (setup w9 "pool2/backup" "tank/d" false false).getD dfltFix

/-- The pool entity registered for (localhost, pool2) in the `w1` run. -/
def pl10 : Zfspool := (alookup "localhost:pool2" fix1.2.2.pools).getD ⟨"", "", [], []⟩

/-- A pool-listing entry is a well-formed hostless specification of its
own pool: it parses back into the pool name plus a path and is the
concatenation of the two.  (True of every name `zfs list` can print for
a dataset of that pool.) -/
def specOfListing (p : Zfspool) (s : String) : Bool :=
  match parseSpec s with
  | some (none, pn, pa) => pn == p.name && s == p.name ++ pa
  | _ => false

/-- Pool listing `{tank/a, tank/ab, tank/b}` for the glob-expansion
example with pattern `tank/a*`. -/
def w7 : World := mkWorld ["tank/a", "tank/ab", "tank/b"] []

def fix7 : Destination × Source × St := (setup w7 "pool2" "tank/a*" true false).getD dfltFix

/-- The state after resolving the destination `pool2` in `w7`. -/
def stD7 : St :=
  match mkDestination w7 "pool2" St.empty with
  | .ok (_, s) => s
  | .error _ => St.empty

/-- The resolved glob root `tank/a*` and the state it leaves. -/
def root7 : ZfsDataset × St :=
  match getZfsDataset w7 "tank/a*" none stD7 with
  | .ok p => p
  | .error _ => (dfltDS, St.empty)

/-! ## Claim theorems -/

/-- Case normal form of the baseline computation. -/
theorem relativesnapshots_eq (srcds dstds : ZfsDataset) :
    relativesnapshots srcds dstds =
      if srcds.snapshots = [] then .error (.needSnapshot srcds.str)
      else if dstds.snapshots = [] then .ok none
      else if srcds.dataset ++ "@" ++ snapIdAfter dstds (latestSnap dstds) ∈ srcds.snapshots
        then .ok (some (snapIdAfter dstds (latestSnap dstds)))
        else .error (.notInSource (snapIdAfter dstds (latestSnap dstds)) srcds.str) := by
  unfold relativesnapshots
  by_cases hs : srcds.snapshots = []
  · simp [hs]
  · have hs1 : ¬ srcds.snapshots.length < 1 := by
      simpa [Nat.lt_one_iff, List.length_eq_zero] using hs
    by_cases hd : dstds.snapshots = []
    · simp [hs, hs1, hd]
    · have hd1 : ¬ dstds.snapshots.length < 1 := by
        simpa [Nat.lt_one_iff, List.length_eq_zero] using hd
      by_cases hmem :
          srcds.dataset ++ "@" ++ snapIdAfter dstds (latestSnap dstds) ∈ srcds.snapshots
      · simp [hs, hs1, hd, hd1, hmem]
      · simp [hs, hs1, hd, hd1, hmem]

/-- **C2.** For every pair of source and destination datasets,
`relativesnapshots` raises the PreconditionError (`needSnapshot`) iff
the source has zero snapshots; otherwise it returns no baseline (`none`)
iff the destination has zero snapshots; otherwise it raises the
DivergenceError (`notInSource`) iff no source snapshot carries the
identifier of the destination's last-listed snapshot, and returns that
shared identifier otherwise. -/
theorem relativesnapshots_cases (srcds dstds : ZfsDataset) :
    (relativesnapshots srcds dstds = .error (.needSnapshot srcds.str) ↔
      srcds.snapshots = [])
    ∧ (srcds.snapshots ≠ [] →
        (relativesnapshots srcds dstds = .ok none ↔ dstds.snapshots = []))
    ∧ (srcds.snapshots ≠ [] → dstds.snapshots ≠ [] →
        (relativesnapshots srcds dstds =
            .error (.notInSource (snapIdAfter dstds (latestSnap dstds)) srcds.str) ↔
          srcds.dataset ++ "@" ++ snapIdAfter dstds (latestSnap dstds) ∉ srcds.snapshots)
        ∧ (relativesnapshots srcds dstds =
            .ok (some (snapIdAfter dstds (latestSnap dstds))) ↔
          srcds.dataset ++ "@" ++ snapIdAfter dstds (latestSnap dstds) ∈ srcds.snapshots)) := by
  rw [relativesnapshots_eq]
  by_cases hs : srcds.snapshots = []
  · simp [hs]
  · by_cases hd : dstds.snapshots = []
    · simp [hs, hd]
    · by_cases hmem :
          srcds.dataset ++ "@" ++ snapIdAfter dstds (latestSnap dstds) ∈ srcds.snapshots
      · simp [hs, hd, hmem]
      · simp [hs, hd, hmem]

/-- Instantiation of C2 on the concrete `w1` scenario: the shared
identifier `s1` is returned. -/
theorem relativesnapshots_cases_witness :
    relativesnapshots srcds1 dstds1 = .ok (some "s1")
    ∧ srcds1.snapshots ≠ [] ∧ dstds1.snapshots ≠ [] := by
  refine ⟨?_, by decide, by decide⟩
  have h := ((relativesnapshots_cases srcds1 dstds1).2.2 (by decide) (by decide)).2.mpr (by decide)
  exact h

/-- **C4 (amended).** When the source dataset has snapshots and the
baseline computation does not raise: `sync` issues no transfer command
iff the destination has snapshots whose latest identifier is nonempty
and equal to the identifier of the source's most recent snapshot; when
the destination's latest identifier is nonempty and differs from the
target, exactly one incremental transfer over that half-open range is
issued; when there is no baseline — and also in the corner case where
the baseline identifier is the empty string, which the source treats as
no baseline (`if startSnapId:` is false for the empty string) — exactly
one full transfer up to the target snapshot is issued. -/
theorem sync_transfer_cases (w : World) (dst : Destination) (srcKey : String) (st : St)
    (srcds dstds : ZfsDataset) (st1 : St)
    (Hs : alookup srcKey st.datasets = some srcds)
    (Ht : targetpath w dst srcds st = .ok (dstds, st1))
    (Hsrc : srcds.snapshots ≠ [])
    (Hok : dstds.snapshots = [] ∨
      srcds.dataset ++ "@" ++ snapIdAfter dstds (latestSnap dstds) ∈ srcds.snapshots) :
    ((sync w dst srcKey st).events = [] ↔
      dstds.snapshots ≠ [] ∧ snapIdAfter dstds (latestSnap dstds) ≠ "" ∧
      snapIdAfter srcds (latestSnap srcds) = snapIdAfter dstds (latestSnap dstds))
    ∧ (dstds.snapshots ≠ [] → snapIdAfter dstds (latestSnap dstds) ≠ "" →
        snapIdAfter srcds (latestSnap srcds) ≠ snapIdAfter dstds (latestSnap dstds) →
        (sync w dst srcKey st).events =
          [.pipe srcds.pool.host
            ["zfs", "send", "-p", "-I", snapIdAfter dstds (latestSnap dstds), latestSnap srcds]
            dstds.pool.host ["zfs", "recv", "-F", dstds.dataset]])
    ∧ ((dstds.snapshots = [] ∨ snapIdAfter dstds (latestSnap dstds) = "") →
        (sync w dst srcKey st).events =
          [.pipe srcds.pool.host ["zfs", "send", "-p", latestSnap srcds]
            dstds.pool.host ["zfs", "recv", "-F", dstds.dataset]]) := by
  have hsync : sync w dst srcKey st =
      (match relativesnapshots srcds dstds with
       | .error e => ⟨st1, [], some e⟩
       | .ok startSnapId =>
        let endSnap := latestSnap srcds
        let endSnapId := snapIdAfter srcds endSnap
        let doPipe (startcmd : List String) : StepRes :=
          let cmda := ["zfs", "send", "-p"] ++ startcmd ++ [endSnap]
          let cmdb := ["zfs", "recv", "-F", dstds.dataset]
          ⟨st1, [.pipe srcds.pool.host cmda dstds.pool.host cmdb],
           if w.pipeOk srcds.pool.host cmda dstds.pool.host cmdb then none
           else some (.pipeFailed srcds.pool.host cmda dstds.pool.host cmdb)⟩
        match startSnapId with
        | some sid =>
            if sid ≠ "" then
              if endSnapId = sid then ⟨st1, [], none⟩ else doPipe ["-I", sid]
            else doPipe []
        | none => doPipe []) := by
    unfold sync
    rw [Hs]
    dsimp only
    rw [Ht]
  by_cases hd : dstds.snapshots = []
  · have hrel : relativesnapshots srcds dstds = .ok none := by
      rw [relativesnapshots_eq]; simp [Hsrc, hd]
    rw [hsync, hrel]
    refine ⟨by simp [hd], fun h _ _ => absurd hd h, fun _ => by simp⟩
  · have hmem : srcds.dataset ++ "@" ++ snapIdAfter dstds (latestSnap dstds) ∈ srcds.snapshots :=
      Hok.resolve_left hd
    have hrel : relativesnapshots srcds dstds = .ok (some (snapIdAfter dstds (latestSnap dstds))) := by
      rw [relativesnapshots_eq]; simp [Hsrc, hd, hmem]
    rw [hsync, hrel]
    by_cases hid : snapIdAfter dstds (latestSnap dstds) = ""
    · refine ⟨by simp [hid], ?_, ?_⟩
      · intro _ h _
        exact absurd hid h
      · intro _
        simp [hid]
    · by_cases heq : snapIdAfter srcds (latestSnap srcds) = snapIdAfter dstds (latestSnap dstds)
      · refine ⟨by simp [hd, hid, heq], ?_, ?_⟩
        · intro _ _ h
          exact absurd heq h
        · intro h
          rcases h with h | h
          · exact absurd h hd
          · exact absurd h hid
      · refine ⟨by simp [hid, heq], ?_, ?_⟩
        · intro _ _ _
          simp [hid, heq]
        · intro h
          rcases h with h | h
          · exact absurd h hd
          · exact absurd h hid

/-- Instantiation of C4 on the `w1` scenario: source `[s1, s2]`,
destination `[s1]` — exactly one incremental transfer over `(s1, s2]`. -/
theorem sync_transfer_cases_witness :
    (sync w1 fix1.1 "tank/d" fix1.2.2).events =
      [.pipe "localhost" ["zfs", "send", "-p", "-I", "s1", "tank/d@s2"] "localhost"
        ["zfs", "recv", "-F", "pool2/d"]] := by
  have h := (sync_transfer_cases w1 fix1.1 "tank/d" fix1.2.2 srcds1 dstds1 tgtSt1
    (by decide) (by rfl) (by decide) (by decide)).2.1 (by decide) (by decide) (by decide)
  exact h

/-- **C4, counterexample to the claim as stated.**  In the `w2`
scenario the baseline computation succeeds and returns the baseline
identifier `""` (the destination's latest snapshot is the degenerate
`pool2/d@`), which differs from the target identifier `s2`; the claim
then requires an incremental transfer, but the source issues a full
transfer, because the empty identifier is falsy in Python. -/
theorem sync_empty_baseline_counterexample :
    relativesnapshots srcds2 dstds2 = .ok (some "") ∧
    snapIdAfter srcds2 (latestSnap srcds2) = "s2" ∧
    (sync w2 fix2.1 "tank/d" fix2.2.2).events =
      [.pipe "localhost" ["zfs", "send", "-p", "tank/d@s2"] "localhost"
        ["zfs", "recv", "-F", "pool2/d"]] := by
  exact ⟨by rfl, by decide, by decide⟩

/-- `finishGet` never raises. -/
theorem finishGet_ok (spec : String) (pl : Zfspool) (path : String) (st : St) :
    ∃ d st', finishGet spec pl path st = .ok (d, st') := by
  unfold finishGet
  cases alookup spec st.datasets
  · exact ⟨_, _, rfl⟩
  · exact ⟨_, _, rfl⟩

/-- **C5 (amended).** For every specification string and optional Pool
argument, `getZfsDataset` fails with a SpecificationError iff the string
does not match the `[host:]pool[/path...]` pattern, or a Pool argument
is given while the spec embeds a host (the source raises in this case
whether or not they agree), or both specify a pool name and the names
differ; in all other cases resolution succeeds. -/
theorem getZfsDataset_error_iff (w : World) (spec : String) (pool? : Option Zfspool)
    (st : St) :
    (∃ e, getZfsDataset w spec pool? st = .error e) ↔ resolutionFails spec pool? = true := by
  unfold getZfsDataset resolutionFails
  cases hp : parseSpec spec with
  | none => simp
  | some t =>
    obtain ⟨host?, poolName, path⟩ := t
    cases pool? with
    | none =>
      dsimp only
      rcases hgp : getZfsPool w localhost poolName st with ⟨pl, st1⟩
      by_cases hh : host?.isSome
      · rcases ho : host? with _ | h
        · rw [ho] at hh; simp at hh
        · dsimp only [Option.getD]
          rcases hgp2 : getZfsPool w h poolName st with ⟨pl2, st2⟩
          obtain ⟨d, st', hfin⟩ := finishGet_ok spec pl2 path st2
          simp [hfin]
      · rcases ho : host? with _ | h
        · dsimp only [Option.getD]
          rw [hgp]
          obtain ⟨d, st', hfin⟩ := finishGet_ok spec pl path st1
          simp [hfin]
        · rw [ho] at hh; simp at hh
    | some pl =>
      by_cases hh : host?.isSome
      · simp [hh]
      · simp only [hh, Bool.false_or, if_false, ite_false]
        by_cases hn : pl.name = poolName
        · simp only [hn, ne_eq, not_true_eq_false, if_false, ite_false]
          obtain ⟨d, st', hfin⟩ := finishGet_ok spec pl path st
          simp [hfin, hn]
        · simp [hn]

/-- **C5, counterexample to the claim as stated.**  The Pool argument
is the unique pool for (localhost, tank) and the specification embeds
the very same host and pool name, so nothing conflicts; the claim then
requires resolution to succeed, but the source raises a
SpecificationError whenever a Pool argument and an embedded host are
both present. -/
theorem getZfsDataset_agreeing_host_counterexample :
    pl5.host = "localhost" ∧ pl5.name = "tank" ∧
    parseSpec "localhost:tank" = some (some "localhost", "tank", "") ∧
    getZfsDataset w1 "localhost:tank" (some pl5) stPl5 = .error (.poolAndHost "localhost") := by
  exact ⟨by decide, by decide, by decide, by rfl⟩

/-- **C3 (code bug).**  In the `w4` scenario, `createsnapshots` visits
`tank/a` then `tank/b` in ascending order; `tank/a` already has the
snapshot `tank/a@L`, and the claim (and the helper docstring together
with the --snapshot help text, which say an existing snapshot is
ignored) requires the loop to continue and create `tank/b@L`.  The
source instead returns from the whole loop: no command is issued, the
state is unchanged, and `tank/b@L` is never created. -/
theorem createsnapshots_early_return_bug :
    (sortByStr fix4.2.1.datasets).map Prod.fst = ["tank/a", "tank/b"] ∧
    (∃ d, alookup "tank/b" fix4.2.2.datasets = some d ∧ "tank/b@L" ∉ d.snapshots) ∧
    (createsnapshots w4 fix4.2.1 "L" fix4.2.2).events = [] ∧
    (createsnapshots w4 fix4.2.1 "L" fix4.2.2).st = fix4.2.2 ∧
    (createsnapshots w4 fix4.2.1 "L" fix4.2.2).err = none := by
  refine ⟨by decide, ⟨(alookup "tank/b" fix4.2.2.datasets).getD dfltDS, by rfl, by decide⟩,
    by decide, by rfl, by decide⟩

/-- With continue-on-error, the snapshot phase never aborts. -/
theorem snapPhase_cont_ab (w : World) (label : String) (l : List Source) (st : St) :
    (snapPhase w label true l st).aborted = false := by
  induction l generalizing st with
  | nil => rfl
  | cons s rest ih =>
    simp only [snapPhase]
    cases he : (createsnapshots w s label st).err with
    | none => simpa using ih _
    | some e => simpa using ih _

/-- With continue-on-error, the per-source sync loop never aborts. -/
theorem syncDatasets_cont_ab (w : World) (dst : Destination)
    (l : List (String × String)) (st : St) :
    (syncDatasets w dst true l st).aborted = false := by
  induction l generalizing st with
  | nil => rfl
  | cons x rest ih =>
    obtain ⟨k, v⟩ := x
    simp only [syncDatasets]
    cases he : (sync w dst k st).err with
    | none => simpa using ih _
    | some e => simpa using ih _

/-- With continue-on-error, the sync phase never aborts. -/
theorem syncPhase_cont_ab (w : World) (dst : Destination) (l : List Source) (st : St) :
    (syncPhase w dst true l st).aborted = false := by
  induction l generalizing st with
  | nil => rfl
  | cons s rest ih =>
    simp only [syncPhase]
    rw [syncDatasets_cont_ab]
    simpa using ih _

/-- Without continue-on-error, a phase aborts exactly when it logged an
error (snapshot phase). -/
theorem snapPhase_nocont (w : World) (label : String) (l : List Source) (st : St) :
    (snapPhase w label false l st).aborted = false ↔ (snapPhase w label false l st).errs = [] := by
  induction l generalizing st with
  | nil => simp [snapPhase]
  | cons s rest ih =>
    simp only [snapPhase]
    cases he : (createsnapshots w s label st).err with
    | none => simpa using ih _
    | some e => simp

/-- Without continue-on-error, the per-source sync loop aborts exactly
when it logged an error. -/
theorem syncDatasets_nocont (w : World) (dst : Destination)
    (l : List (String × String)) (st : St) :
    (syncDatasets w dst false l st).aborted = false ↔
      (syncDatasets w dst false l st).errs = [] := by
  induction l generalizing st with
  | nil => simp [syncDatasets]
  | cons x rest ih =>
    obtain ⟨k, v⟩ := x
    simp only [syncDatasets]
    cases he : (sync w dst k st).err with
    | none => simpa using ih _
    | some e => simp

/-- Without continue-on-error, the sync phase aborts exactly when it
logged an error. -/
theorem syncPhase_nocont (w : World) (dst : Destination) (l : List Source) (st : St) :
    (syncPhase w dst false l st).aborted = false ↔ (syncPhase w dst false l st).errs = [] := by
  induction l generalizing st with
  | nil => simp [syncPhase]
  | cons s rest ih =>
    simp only [syncPhase]
    cases hab : (syncDatasets w dst false (sortByStr s.datasets) st).aborted with
    | true =>
      have hne : (syncDatasets w dst false (sortByStr s.datasets) st).errs ≠ [] := by
        intro hc
        have h3 := (syncDatasets_nocont w dst (sortByStr s.datasets) st).mpr hc
        rw [h3] at hab
        exact absurd hab (by simp)
      simp [hab, hne]
    | false =>
      have herr := (syncDatasets_nocont w dst (sortByStr s.datasets) st).mp hab
      simp [hab, herr, ih]

/-- **C1 (amended).** The orchestrator returns 0 or 1; with the
continue-on-error policy it always returns 0, even when snapshot or sync
steps raised (the errors are only logged); it returns 0 iff
continue-on-error is set or no attempted step raised. -/
theorem zfssync_return_code (w : World) (sources : List Source) (dst : Destination)
    (snapshot cont : Bool) (st : St) :
    ((zfssync w sources dst snapshot cont st).1 = 0 ∨
      (zfssync w sources dst snapshot cont st).1 = 1)
    ∧ (cont = true → (zfssync w sources dst snapshot cont st).1 = 0)
    ∧ ((zfssync w sources dst snapshot cont st).1 = 0 ↔
        cont = true ∨ (zfssync w sources dst snapshot cont st).2.2.2 = []) := by
  have hassemble : ∀ (p1 p2 : PhaseRes),
      (p1.aborted = false ↔ p1.errs = []) → (p2.aborted = false ↔ p2.errs = []) →
      ((zfssyncAssemble p1 p2).1 = 0 ∨ (zfssyncAssemble p1 p2).1 = 1)
      ∧ ((zfssyncAssemble p1 p2).1 = 0 ↔ (zfssyncAssemble p1 p2).2.2.2 = []) := by
    intro p1 p2 h1 h2
    unfold zfssyncAssemble
    cases hab1 : p1.aborted with
    | true =>
      have hne : p1.errs ≠ [] := by
        intro hc
        rw [h1.mpr hc] at hab1
        exact absurd hab1 (by simp)
      simp [hne]
    | false =>
      have he1 : p1.errs = [] := h1.mp hab1
      cases hab2 : p2.aborted with
      | true =>
        have hne : p2.errs ≠ [] := by
          intro hc
          rw [h2.mpr hc] at hab2
          exact absurd hab2 (by simp)
        simp [he1, hne]
      | false =>
        have he2 : p2.errs = [] := h2.mp hab2
        simp [he1, he2]
  have hok : ∀ (p1 p2 : PhaseRes), p1.aborted = false → p2.aborted = false →
      (zfssyncAssemble p1 p2).1 = 0 := by
    intro p1 p2 h1 h2
    unfold zfssyncAssemble
    simp [h1, h2]
  simp only [zfssync]
  cases cont with
  | true =>
    cases snapshot with
    | true =>
      have h0 := hok (snapPhase w w.nowLabel true sources st)
        (syncPhase w dst true sources (snapPhase w w.nowLabel true sources st).st)
        (snapPhase_cont_ab w w.nowLabel sources st)
        (syncPhase_cont_ab w dst sources (snapPhase w w.nowLabel true sources st).st)
      exact ⟨Or.inl h0, fun _ => h0, iff_of_true h0 (Or.inl rfl)⟩
    | false =>
      have h0 := hok ⟨st, [], [], false⟩ (syncPhase w dst true sources st) rfl
        (syncPhase_cont_ab w dst sources st)
      exact ⟨Or.inl h0, fun _ => h0, iff_of_true h0 (Or.inl rfl)⟩
  | false =>
    cases snapshot with
    | true =>
      have h := hassemble (snapPhase w w.nowLabel false sources st)
        (syncPhase w dst false sources (snapPhase w w.nowLabel false sources st).st)
        (snapPhase_nocont w w.nowLabel sources st)
        (syncPhase_nocont w dst sources (snapPhase w w.nowLabel false sources st).st)
      exact ⟨h.1, fun hc => absurd hc (by simp), h.2.trans (by simp)⟩
    | false =>
      have h := hassemble ⟨st, [], [], false⟩ (syncPhase w dst false sources st)
        (by simp) (syncPhase_nocont w dst sources st)
      exact ⟨h.1, fun hc => absurd hc (by simp), h.2.trans (by simp)⟩

/-- **C1, counterexample to the claim as stated.**  Under the
continue-on-error policy, the sync step for `tank/d` (which has no
snapshots) raises a PreconditionError, which is logged; the claim then
requires a nonzero overall result, but `zfssync` returns 0. -/
theorem zfssync_continue_swallows_error_counterexample :
    (zfssync w3 [fix3.2.1] fix3.1 false true fix3.2.2).2.2.2 =
      [.needSnapshot "localhost:tank/d"] ∧
    (zfssync w3 [fix3.2.1] fix3.1 false true fix3.2.2).1 = 0 := by
  exact ⟨by rfl, by rfl⟩

/-- Every command issued by the snapshot-creation loop is a single-host
`zfs snapshot` execution. -/
theorem csLoop_events_run (w : World) (label : String) :
    ∀ (l : List (String × String)) (st : St) (e : Event),
      e ∈ (csLoop w label l st).events → e.isRun = true := by
  intro l
  induction l with
  | nil =>
    intro st e he
    simp [csLoop] at he
  | cons x rest ih =>
    intro st e he
    obtain ⟨k, v⟩ := x
    cases halo : alookup k st.datasets with
    | none => simp [csLoop, halo] at he
    | some d =>
      by_cases hin : d.dataset ++ "@" ++ label ∈ d.snapshots
      · simp [csLoop, halo, hin] at he
      · by_cases hex : w.execOk d.pool.host ["zfs", "snapshot", d.dataset ++ "@" ++ label] = true
        · rw [csLoop] at he
          simp only [halo, hin, hex, if_false, if_true, ite_false, ite_true] at he
          rcases List.mem_cons.mp he with h | h
          · rw [h]; rfl
          · exact ih _ e h
        · rw [csLoop] at he
          simp only [halo, hin, hex, if_false, if_true, ite_false, ite_true] at he
          simp at he
          rw [he]; rfl

/-- Every command issued by the snapshot phase is a single-host
execution. -/
theorem snapPhase_events_run (w : World) (label : String) (cont : Bool) :
    ∀ (l : List Source) (st : St) (e : Event),
      e ∈ (snapPhase w label cont l st).events → e.isRun = true := by
  intro l
  induction l with
  | nil =>
    intro st e he
    simp [snapPhase] at he
  | cons s rest ih =>
    intro st e he
    rw [snapPhase] at he
    cases herr : (createsnapshots w s label st).err with
    | none =>
      rw [herr] at he
      simp only [List.mem_append] at he
      rcases he with h | h
      · exact csLoop_events_run w label _ _ e h
      · exact ih _ e h
    | some er =>
      rw [herr] at he
      cases cont with
      | true =>
        simp only [if_true, ite_true, List.mem_append] at he
        rcases he with h | h
        · exact csLoop_events_run w label _ _ e h
        · exact ih _ e h
      | false =>
        simp only [if_false, ite_false] at he
        exact csLoop_events_run w label _ _ e he

/-- Every command issued by `sync` is a piped two-host transfer. -/
theorem sync_events_pipe (w : World) (dst : Destination) (k : String) (st : St) :
    ∀ e ∈ (sync w dst k st).events, e.isPipe = true := by
  intro e he
  unfold sync at he
  cases halo : alookup k st.datasets with
  | none => simp [halo] at he
  | some srcds =>
    rw [halo] at he
    dsimp only at he
    cases ht : targetpath w dst srcds st with
    | error er => rw [ht] at he; simp at he
    | ok p =>
      obtain ⟨dstds, st1⟩ := p
      rw [ht] at he
      dsimp only at he
      cases hr : relativesnapshots srcds dstds with
      | error er => rw [hr] at he; simp at he
      | ok startSnapId =>
        rw [hr] at he
        cases startSnapId with
        | none =>
          simp at he
          rw [he]; rfl
        | some sid =>
          by_cases hsid : sid = ""
          · simp [hsid] at he
            rw [he]; rfl
          · by_cases heq : snapIdAfter srcds (latestSnap srcds) = sid
            · simp [hsid, heq] at he
            · simp [hsid, heq] at he
              rw [he]; rfl

/-- Every command issued by the inner sync loop is a piped transfer. -/
theorem syncDatasets_events_pipe (w : World) (dst : Destination) (cont : Bool) :
    ∀ (l : List (String × String)) (st : St) (e : Event),
      e ∈ (syncDatasets w dst cont l st).events → e.isPipe = true := by
  intro l
  induction l with
  | nil =>
    intro st e he
    simp [syncDatasets] at he
  | cons x rest ih =>
    intro st e he
    obtain ⟨k, v⟩ := x
    rw [syncDatasets] at he
    cases herr : (sync w dst k st).err with
    | none =>
      rw [herr] at he
      simp only [List.mem_append] at he
      rcases he with h | h
      · exact sync_events_pipe w dst k st e h
      · exact ih _ e h
    | some er =>
      rw [herr] at he
      cases cont with
      | true =>
        simp only [if_true, ite_true, List.mem_append] at he
        rcases he with h | h
        · exact sync_events_pipe w dst k st e h
        · exact ih _ e h
      | false =>
        simp only [if_false, ite_false] at he
        exact sync_events_pipe w dst k st e he

/-- Every command issued by the sync phase is a piped transfer. -/
theorem syncPhase_events_pipe (w : World) (dst : Destination) (cont : Bool) :
    ∀ (l : List Source) (st : St) (e : Event),
      e ∈ (syncPhase w dst cont l st).events → e.isPipe = true := by
  intro l
  induction l with
  | nil =>
    intro st e he
    simp [syncPhase] at he
  | cons s rest ih =>
    intro st e he
    rw [syncPhase] at he
    cases hab : (syncDatasets w dst cont (sortByStr s.datasets) st).aborted with
    | true =>
      simp only [hab, if_true, ite_true] at he
      exact syncDatasets_events_pipe w dst cont _ _ e he
    | false =>
      simp only [hab, if_false, ite_false] at he
      rcases List.mem_append.mp he with h | h
      · exact syncDatasets_events_pipe w dst cont _ _ e h
      · exact ih _ e h

/-- The character-list order is total. -/
theorem charsLe_total : ∀ a b : List Char, charsLe a b = true ∨ charsLe b a = true := by
  intro a
  induction a with
  | nil =>
    intro b
    left
    rfl
  | cons x xs ih =>
    intro b
    cases b with
    | nil =>
      right
      rfl
    | cons y ys =>
      rcases lt_trichotomy x y with h | h | h
      · left
        simp [charsLe, h]
      · subst h
        rcases ih ys with h2 | h2
        · left
          simp [charsLe, h2]
        · right
          simp [charsLe, h2]
      · right
        simp [charsLe, h]

/-- Inserting into a sorted schedule keeps it sorted. -/
theorem insertByStr_chain (x : String × String) :
    ∀ l, List.Chain' (fun a b : String × String => strLe a.2 b.2 = true) l →
      List.Chain' (fun a b : String × String => strLe a.2 b.2 = true) (insertByStr x l) := by
  intro l
  induction l with
  | nil =>
    intro _
    simp [insertByStr]
  | cons y t ih =>
    intro hc
    rw [insertByStr]
    by_cases h : strLe x.2 y.2 = true
    · rw [if_pos h]
      exact List.chain'_cons.mpr ⟨h, hc⟩
    · rw [if_neg h]
      have hyx : strLe y.2 x.2 = true := by
        rcases charsLe_total x.2.data y.2.data with h2 | h2
        · exact absurd h2 h
        · exact h2
      have hins := ih hc.tail
      rw [List.chain'_cons']
      refine ⟨?_, hins⟩
      intro z hz
      cases t with
      | nil =>
        simp [insertByStr] at hz
        subst hz
        exact hyx
      | cons u t2 =>
        rw [insertByStr] at hz
        by_cases h3 : strLe x.2 u.2 = true
        · rw [if_pos h3] at hz
          simp at hz
          subst hz
          exact hyx
        · rw [if_neg h3] at hz
          simp at hz
          subst hz
          exact (List.chain'_cons.mp hc).1

/-- The schedule of one source set is sorted in ascending qualified
string order. -/
theorem sortByStr_chain (l : List (String × String)) :
    List.Chain' (fun a b : String × String => strLe a.2 b.2 = true) (sortByStr l) := by
  induction l with
  | nil => simp [sortByStr]
  | cons x t ih => exact insertByStr_chain x _ ih

theorem insertByStr_perm (x : String × String) :
    ∀ l : List (String × String), (insertByStr x l).Perm (x :: l) := by
  intro l
  induction l with
  | nil => rfl
  | cons y t ih =>
    rw [insertByStr]
    by_cases h : strLe x.2 y.2 = true
    · rw [if_pos h]
    · rw [if_neg h]
      exact (ih.cons y).trans (List.Perm.swap x y t)

/-- The schedule is a permutation of the source set. -/
theorem sortByStr_perm (l : List (String × String)) : (sortByStr l).Perm l := by
  induction l with
  | nil => rfl
  | cons x t ih => exact (insertByStr_perm x (sortByStr t)).trans (ih.cons x)

/-- **C8 (amended).**  In a run, all snapshot-creation commands precede
all transfer commands; each source set is processed in ascending
lexicographic order of the qualified `host:pool/path` names (its
schedule is the sorted permutation of the set); and within one source
set each dataset is driven at most once (the qualified names of the
schedule stay pairwise distinct).  (A dataset matched by more than one
source specification is, however, transferred once per containing
source; see the counterexample.) -/
theorem zfssync_schedule (w : World) (sources : List Source) (dst : Destination)
    (snapshot cont : Bool) (st : St)
    (hnd : ∀ src ∈ sources, (src.datasets.map Prod.snd).Nodup) :
    (∃ l1 l2, (zfssync w sources dst snapshot cont st).2.2.1 = l1 ++ l2 ∧
        (∀ e ∈ l1, e.isRun = true) ∧ (∀ e ∈ l2, e.isPipe = true))
    ∧ (∀ src ∈ sources,
        (sortByStr src.datasets).Perm src.datasets
        ∧ List.Chain' (fun a b : String × String => strLe a.2 b.2 = true)
            (sortByStr src.datasets)
        ∧ ((sortByStr src.datasets).map Prod.snd).Nodup) := by
  constructor
  · have hgen : ∀ (p1 : PhaseRes), (∀ e ∈ p1.events, e.isRun = true) →
        ∃ l1 l2, (zfssyncAssemble p1 (syncPhase w dst cont sources p1.st)).2.2.1 = l1 ++ l2 ∧
          (∀ e ∈ l1, e.isRun = true) ∧ (∀ e ∈ l2, e.isPipe = true) := by
      intro p1 hp1
      unfold zfssyncAssemble
      cases hab : p1.aborted with
      | true =>
        refine ⟨p1.events, [], by simp, hp1, by simp⟩
      | false =>
        cases hab2 : (syncPhase w dst cont sources p1.st).aborted with
        | true =>
          refine ⟨p1.events, (syncPhase w dst cont sources p1.st).events, by simp, hp1, ?_⟩
          intro e he
          exact syncPhase_events_pipe w dst cont sources p1.st e he
        | false =>
          refine ⟨p1.events, (syncPhase w dst cont sources p1.st).events, by simp, hp1, ?_⟩
          intro e he
          exact syncPhase_events_pipe w dst cont sources p1.st e he
    simp only [zfssync]
    cases snapshot with
    | true =>
      exact hgen (snapPhase w w.nowLabel cont sources st)
        (fun e he => snapPhase_events_run w w.nowLabel cont sources st e he)
    | false =>
      exact hgen ⟨st, [], [], false⟩ (by simp)
  · intro src hsrc
    refine ⟨sortByStr_perm _, sortByStr_chain _, ?_⟩
    exact (((sortByStr_perm src.datasets).map Prod.snd).nodup_iff).mpr (hnd src hsrc)

/-- Instantiation of C8 on the `w1` scenario with the snapshot flag
set: the trace decomposes into snapshot executions followed by piped
transfers. -/
theorem zfssync_schedule_witness :
    ∃ l1 l2, (zfssync w1 [fix1.2.1] fix1.1 true false fix1.2.2).2.2.1 = l1 ++ l2 ∧
      (∀ e ∈ l1, e.isRun = true) ∧ (∀ e ∈ l2, e.isPipe = true) :=
  (zfssync_schedule w1 [fix1.2.1] fix1.1 true false fix1.2.2 (by decide)).1

/-- **C8, counterexample to the claim as stated.**  The same source
specification `tank/a` given twice yields two source sets containing
the identical dataset; `zfssync` drives the very same transfer twice,
refuting that a dataset matched by more than one source specification
is transferred only once. -/
theorem zfssync_duplicate_source_counterexample :
    fix6.2.1.datasets = fix6.2.2.1.datasets ∧
    (zfssync w6 [fix6.2.1, fix6.2.2.1] fix6.1 false false fix6.2.2.2).2.2.1 =
      [.pipe "localhost" ["zfs", "send", "-p", "tank/a@s1"] "localhost"
        ["zfs", "recv", "-F", "pool2/a"],
       .pipe "localhost" ["zfs", "send", "-p", "tank/a@s1"] "localhost"
        ["zfs", "recv", "-F", "pool2/a"]] := by
  exact ⟨by rfl, by rfl⟩

theorem alookup_aset {α : Type} (k k' : String) (v : α) :
    ∀ l : List (String × α),
      alookup k (aset k' v l) = if k' = k then some v else alookup k l := by
  intro l
  induction l with
  | nil => simp [aset, alookup]
  | cons e t ih =>
    obtain ⟨ek, ev⟩ := e
    by_cases h : ek = k'
    · subst h
      simp only [aset, if_pos rfl]
      by_cases h2 : ek = k
      · subst h2
        simp [alookup]
      · simp [alookup, h2]
    · rw [aset, if_neg h]
      by_cases h2 : ek = k
      · subst h2
        have h3 : ¬ k' = ek := fun hc => h hc.symm
        simp [alookup, h3]
      · simp [alookup, h2, ih]

theorem alookup_mem {α : Type} (k : String) (v : α) :
    ∀ l : List (String × α), alookup k l = some v → (k, v) ∈ l := by
  intro l
  induction l with
  | nil => intro h; simp [alookup] at h
  | cons e t ih =>
    obtain ⟨ek, ev⟩ := e
    intro h
    rw [alookup] at h
    by_cases h2 : ek = k
    · rw [if_pos h2] at h
      subst h2
      obtain rfl : ev = v := by injection h
      exact List.mem_cons_self _ _
    · rw [if_neg h2] at h
      exact List.mem_cons_of_mem _ (ih h)

theorem aset_mem {α : Type} (k : String) (v : α) :
    ∀ (l : List (String × α)) (e : String × α), e ∈ aset k v l → e = (k, v) ∨ e ∈ l := by
  intro l
  induction l with
  | nil =>
    intro e he
    simp [aset] at he
    exact Or.inl he
  | cons f t ih =>
    obtain ⟨fk, fv⟩ := f
    intro e he
    rw [aset] at he
    by_cases h : fk = k
    · rw [if_pos h] at he
      rcases List.mem_cons.mp he with h2 | h2
      · exact Or.inl h2
      · exact Or.inr (List.mem_cons_of_mem _ h2)
    · rw [if_neg h] at he
      rcases List.mem_cons.mp he with h2 | h2
      · exact Or.inr (by rw [h2]; exact List.mem_cons_self _ _)
      · rcases ih e h2 with h3 | h3
        · exact Or.inl h3
        · exact Or.inr (List.mem_cons_of_mem _ h3)

/-- `mkZfspool` fills the host and name fields from its arguments and
leaves the pool and dataset registries untouched. -/
theorem mkZfspool_fields (w : World) (n h : String) (st : St) :
    (mkZfspool w n h st).1.host = h ∧ (mkZfspool w n h st).1.name = n ∧
    (mkZfspool w n h st).2.pools = st.pools ∧ (mkZfspool w n h st).2.datasets = st.datasets := by
  unfold mkZfspool updateHostFn
  by_cases h1 : (alookup h st.hostDatasets).isSome
  · by_cases h2 : (alookup h st.hostSnapshots).isSome
    · simp [h1, h2]
    · simp [h1, h2]
  · by_cases h2 : (alookup h ((if (alookup h st.hostDatasets).isSome then st
        else { st with
          hostDatasets := aset h (w.listDatasets h) st.hostDatasets,
          hostSnapshots := aset h (w.listSnapshots h) st.hostSnapshots }).hostSnapshots)).isSome
    · simp_all
    · simp_all

/-- Stability of the pool factory: after one call, the pool is
registered under its key, the dataset registry is unchanged, and a
second call returns the same pool and state. -/
theorem getZfsPool_stable (w : World) (h n : String) (st : St) (p : Zfspool) (st' : St)
    (hc : getZfsPool w h n st = (p, st')) :
    alookup (h ++ ":" ++ n) st'.pools = some p ∧ st'.datasets = st.datasets ∧
    getZfsPool w h n st' = (p, st') := by
  unfold getZfsPool at hc ⊢
  dsimp only at hc ⊢
  cases halo : alookup (h ++ ":" ++ n) st.pools with
  | some q =>
    rw [halo] at hc
    obtain ⟨rfl, rfl⟩ : q = p ∧ st = st' := by
      constructor <;> injection hc <;> simp_all
    exact ⟨halo, rfl, by rw [halo]⟩
  | none =>
    rw [halo] at hc
    rcases hmk : mkZfspool w n h st with ⟨pm, stm⟩
    rw [hmk] at hc
    dsimp only at hc
    obtain ⟨rfl, rfl⟩ : pm = p ∧ { stm with pools := aset (h ++ ":" ++ n) pm stm.pools } = st' := by
      constructor <;> injection hc <;> simp_all
    have hfields := mkZfspool_fields w n h st
    rw [hmk] at hfields
    refine ⟨?_, ?_, ?_⟩
    · simp [alookup_aset]
    · exact hfields.2.2.2
    · simp [alookup_aset]

/-- The pool factory preserves the registry invariant. -/
theorem getZfsPool_poolInv (w : World) (h n : String) (st : St) (p : Zfspool) (st' : St)
    (hinv : PoolInv st) (hc : getZfsPool w h n st = (p, st')) : PoolInv st' := by
  unfold getZfsPool at hc
  dsimp only at hc
  cases halo : alookup (h ++ ":" ++ n) st.pools with
  | some q =>
    rw [halo] at hc
    obtain rfl : st = st' := by injection hc <;> simp_all
    exact hinv
  | none =>
    rw [halo] at hc
    rcases hmk : mkZfspool w n h st with ⟨pm, stm⟩
    rw [hmk] at hc
    dsimp only at hc
    obtain ⟨rfl, rfl⟩ : pm = p ∧ { stm with pools := aset (h ++ ":" ++ n) pm stm.pools } = st' := by
      constructor <;> injection hc <;> simp_all
    have hfields := mkZfspool_fields w n h st
    rw [hmk] at hfields
    intro e he
    dsimp only at he
    rcases aset_mem _ _ _ _ he with h2 | h2
    · rw [h2]
      dsimp only
      rw [hfields.1, hfields.2.1]
    · rw [hfields.2.2.1] at h2
      exact hinv e h2

/-- **C6.** Resolution is idempotent and entities are unique: a
successful resolution of a specification string resolves again, from
the state it produced, to the identical dataset entity without any
state change (no new Dataset, no new Pool); the pool-registry invariant
is preserved, under it at most one pool entry exists per (host, name)
pair; and re-resolving a (host, name) pair through the pool factory
returns the same pool instance and the same state. -/
theorem resolution_idempotent_pools_unique (w : World) (spec : String) (st : St) :
    (∀ d st', getZfsDataset w spec none st = .ok (d, st') →
        getZfsDataset w spec none st' = .ok (d, st'))
    ∧ (PoolInv st → ∀ d st', getZfsDataset w spec none st = .ok (d, st') → PoolInv st')
    ∧ (PoolInv st → ∀ k1 k2 p1 p2, alookup k1 st.pools = some p1 →
        alookup k2 st.pools = some p2 → p1.host = p2.host → p1.name = p2.name →
        k1 = k2 ∧ p1 = p2)
    ∧ (∀ h n p st', getZfsPool w h n st = (p, st') → getZfsPool w h n st' = (p, st')) := by
  refine ⟨?_, ?_, ?_, ?_⟩
  · intro d st' hok
    unfold getZfsDataset at hok ⊢
    cases hp : parseSpec spec with
    | none =>
      rw [hp] at hok
      simp at hok
    | some t =>
      obtain ⟨host?, pn, pa⟩ := t
      rw [hp] at hok
      dsimp only at hok ⊢
      rcases hgp : getZfsPool w (host?.getD localhost) pn st with ⟨pl, st1⟩
      rw [hgp] at hok
      dsimp only at hok
      have hstable := getZfsPool_stable w (host?.getD localhost) pn st pl st1 hgp
      unfold finishGet at hok
      cases halo : alookup spec st1.datasets with
      | some d0 =>
        rw [halo] at hok
        injection hok with hpair
        injection hpair with h1 h2
        subst h1
        subst h2
        rw [hstable.2.2]
        dsimp only
        unfold finishGet
        rw [halo]
      | none =>
        rw [halo] at hok
        dsimp only at hok
        injection hok with hpair
        injection hpair with h1 h2
        subst h1
        subst h2
        have hgp2 : getZfsPool w (host?.getD localhost) pn
            { st1 with datasets := aset spec (mkZfsDataset pl pa) st1.datasets } =
            (pl, { st1 with datasets := aset spec (mkZfsDataset pl pa) st1.datasets }) := by
          unfold getZfsPool
          dsimp only
          rw [hstable.1]
        rw [hgp2]
        dsimp only
        unfold finishGet
        simp [alookup_aset]
  · intro hinv d st' hok
    unfold getZfsDataset at hok
    cases hp : parseSpec spec with
    | none =>
      rw [hp] at hok
      simp at hok
    | some t =>
      obtain ⟨host?, pn, pa⟩ := t
      rw [hp] at hok
      dsimp only at hok
      rcases hgp : getZfsPool w (host?.getD localhost) pn st with ⟨pl, st1⟩
      rw [hgp] at hok
      dsimp only at hok
      have hinv1 : PoolInv st1 := getZfsPool_poolInv w _ pn st pl st1 hinv hgp
      unfold finishGet at hok
      cases halo : alookup spec st1.datasets with
      | some d0 =>
        rw [halo] at hok
        injection hok with hpair
        injection hpair with h1 h2
        subst h1
        subst h2
        exact hinv1
      | none =>
        rw [halo] at hok
        dsimp only at hok
        injection hok with hpair
        injection hpair with h1 h2
        subst h1
        subst h2
        exact hinv1
  · intro hinv k1 k2 p1 p2 h1 h2 hh hn
    have e1 := hinv (k1, p1) (alookup_mem k1 p1 st.pools h1)
    have e2 := hinv (k2, p2) (alookup_mem k2 p2 st.pools h2)
    dsimp only at e1 e2
    have hk : k1 = k2 := by rw [e1, e2, hh, hn]
    subst hk
    rw [h1] at h2
    exact ⟨rfl, by injection h2⟩
  · intro h n p st' hc
    exact (getZfsPool_stable w h n st p st' hc).2.2

/-- Instantiation of C6: after the first resolution of `tank/d` in the
`w1` world, re-resolving returns the identical entity and state, and
the pool-registry invariant holds. -/
theorem resolution_idempotent_witness :
    getZfsDataset w1 "tank/d" none res1.2 = .ok (res1.1, res1.2) ∧ PoolInv res1.2 :=
  ⟨(resolution_idempotent_pools_unique w1 "tank/d" St.empty).1 res1.1 res1.2 (by rfl),
   (resolution_idempotent_pools_unique w1 "tank/d" St.empty).2.1 (by decide)
     res1.1 res1.2 (by rfl)⟩

/-- Resolution behaviour of `targetpath` when the rebuilt specification
parses back into host, pool name and path and the pool is already
registered: it returns the memoised entity, or creates the target
dataset, without touching the pool registry or the topology caches. -/
theorem targetpath_cases (w : World) (dst : Destination) (d : ZfsDataset) (st : St)
    (h n pp : String) (pl : Zfspool)
    (Hp : parseSpec (targetpathSpec dst d) = some (some h, n, pp))
    (Hpl : alookup (h ++ ":" ++ n) st.pools = some pl) :
    (∀ t, alookup (targetpathSpec dst d) st.datasets = some t →
        targetpath w dst d st = .ok (t, st))
    ∧ (alookup (targetpathSpec dst d) st.datasets = none →
        targetpath w dst d st = .ok (mkZfsDataset pl pp,
          { st with datasets := aset (targetpathSpec dst d) (mkZfsDataset pl pp) st.datasets })) := by
  unfold targetpath getZfsDataset
  rw [Hp]
  dsimp only [Option.getD]
  unfold getZfsPool
  dsimp only
  rw [Hpl]
  dsimp only
  unfold finishGet
  constructor
  · intro t ht
    rw [ht]
  · intro hn2
    rw [hn2]

/-- **C9.** The destination dataset computed by `targetpath` is exactly
`<destination host>:<destination pool name><source path>`: any path
component of the destination specification itself is ignored in the
mapping (the rebuilt specification only uses the destination pool's
host and name). -/
theorem targetpath_maps (w : World) (dst : Destination) (d : ZfsDataset) (st : St)
    (pl : Zfspool)
    (Hp : parseSpec (targetpathSpec dst d) =
      some (some dst.destination.pool.host, dst.destination.pool.name, d.path))
    (Hpl : alookup (dst.destination.pool.host ++ ":" ++ dst.destination.pool.name) st.pools =
      some pl)
    (Hplf : pl.host = dst.destination.pool.host ∧ pl.name = dst.destination.pool.name)
    (Hreg : ((alookup (targetpathSpec dst d) st.datasets).all
      (fun t => t.str == targetpathSpec dst d)) = true) :
    ∃ t st', targetpath w dst d st = .ok (t, st') ∧
      t.str = dst.destination.pool.host ++ ":" ++ dst.destination.pool.name ++ d.path := by
  have hc := targetpath_cases w dst d st _ _ _ pl Hp Hpl
  cases halo : alookup (targetpathSpec dst d) st.datasets with
  | some t =>
    refine ⟨t, st, hc.1 t halo, ?_⟩
    rw [halo] at Hreg
    have : t.str = targetpathSpec dst d := by
      simpa [Option.all] using Hreg
    exact this
  | none =>
    refine ⟨mkZfsDataset pl d.path, _, hc.2 halo, ?_⟩
    show pl.host ++ ":" ++ pl.name ++ d.path = _
    rw [Hplf.1, Hplf.2]

/-- Instantiation of C9: in the `w9` world the destination
specifications `pool2` and `pool2/backup` both map the source `tank/d`
onto the same target `localhost:pool2/d` — the `/backup` path component
of the second destination is ignored. -/
theorem targetpath_maps_witness :
    (∃ t st', targetpath w9 fix9a.1 fix9a.2.1.root fix9a.2.2 = .ok (t, st') ∧
      t.str = "localhost:pool2/d")
    ∧ (∃ t st', targetpath w9 fix9b.1 fix9b.2.1.root fix9b.2.2 = .ok (t, st') ∧
      t.str = "localhost:pool2/d") := by
  constructor
  · exact targetpath_maps w9 fix9a.1 fix9a.2.1.root fix9a.2.2
      ((alookup "localhost:pool2" fix9a.2.2.pools).getD ⟨"", "", [], []⟩)
      (by decide) (by rfl) (by decide) (by decide)
  · exact targetpath_maps w9 fix9b.1 fix9b.2.1.root fix9b.2.2
      ((alookup "localhost:pool2" fix9b.2.2.pools).getD ⟨"", "", [], []⟩)
      (by decide) (by rfl) (by decide) (by decide)

/-- The state after `sync` is exactly the state left by `targetpath`:
neither the baseline computation nor the transfer itself mutates any
registry. -/
theorem sync_st (w : World) (dst : Destination) (srcKey : String) (st : St)
    (srcds dstds : ZfsDataset) (st1 : St)
    (Hs : alookup srcKey st.datasets = some srcds)
    (Ht : targetpath w dst srcds st = .ok (dstds, st1)) :
    (sync w dst srcKey st).st = st1 := by
  unfold sync
  rw [Hs]
  dsimp only
  rw [Ht]
  dsimp only
  cases relativesnapshots srcds dstds with
  | error e => rfl
  | ok s =>
    cases s with
    | none => rfl
    | some sid =>
      dsimp only
      by_cases hsid : sid ≠ ""
      · rw [if_pos hsid]
        by_cases heq : snapIdAfter srcds (latestSnap srcds) = sid
        · rw [if_pos heq]
        · rw [if_neg heq]
      · rw [if_neg hsid]

/-- Frame property of the snapshot-creation loop: the topology caches
and the pool registry are untouched, and every registered dataset is
either unchanged or extended by appending copies of its own
`<dataset>@<label>` snapshot name to its snapshot list. -/
theorem csLoop_frame (w : World) (label : String) :
    ∀ (l : List (String × String)) (st : St),
      (csLoop w label l st).st.hostDatasets = st.hostDatasets
      ∧ (csLoop w label l st).st.hostSnapshots = st.hostSnapshots
      ∧ (csLoop w label l st).st.pools = st.pools
      ∧ ∀ k dd, alookup k st.datasets = some dd →
          ∃ dd', alookup k (csLoop w label l st).st.datasets = some dd' ∧
            dd'.pool = dd.pool ∧ dd'.path = dd.path ∧
            ∃ suf, dd'.snapshots = dd.snapshots ++ suf ∧
              ∀ s ∈ suf, s = dd.dataset ++ "@" ++ label := by
  intro l
  induction l with
  | nil =>
    intro st
    refine ⟨rfl, rfl, rfl, ?_⟩
    intro k dd hdd
    exact ⟨dd, hdd, rfl, rfl, [], by simp, by simp⟩
  | cons x rest ih =>
    intro st
    obtain ⟨k0, v0⟩ := x
    rw [csLoop]
    cases halo : alookup k0 st.datasets with
    | none =>
      refine ⟨rfl, rfl, rfl, ?_⟩
      intro k dd hdd
      exact ⟨dd, hdd, rfl, rfl, [], by simp, by simp⟩
    | some d =>
      dsimp only
      by_cases hin : d.dataset ++ "@" ++ label ∈ d.snapshots
      · rw [if_pos hin]
        refine ⟨rfl, rfl, rfl, ?_⟩
        intro k dd hdd
        exact ⟨dd, hdd, rfl, rfl, [], by simp, by simp⟩
      · rw [if_neg hin]
        by_cases hex : w.execOk d.pool.host ["zfs", "snapshot", d.dataset ++ "@" ++ label] = true
        · rw [if_pos hex]
          dsimp only
          have hih := ih (stAppend st k0 d (d.dataset ++ "@" ++ label))
          have hfields : (stAppend st k0 d (d.dataset ++ "@" ++ label)).hostDatasets =
              st.hostDatasets ∧
              (stAppend st k0 d (d.dataset ++ "@" ++ label)).hostSnapshots = st.hostSnapshots ∧
              (stAppend st k0 d (d.dataset ++ "@" ++ label)).pools = st.pools :=
            ⟨rfl, rfl, rfl⟩
          refine ⟨hih.1.trans hfields.1, hih.2.1.trans hfields.2.1,
            hih.2.2.1.trans hfields.2.2, ?_⟩
          intro k dd hdd
          by_cases hk : k0 = k
          · subst hk
            obtain rfl : d = dd := by rw [halo] at hdd; injection hdd
            have hlook : alookup k0 (stAppend st k0 d (d.dataset ++ "@" ++ label)).datasets =
                some { d with snapshots := d.snapshots ++ [d.dataset ++ "@" ++ label] } := by
              unfold stAppend
              simp [alookup_aset]
            obtain ⟨dd', h1, h2, h3, suf, h4, h5⟩ := hih.2.2.2 k0 _ hlook
            refine ⟨dd', h1, h2, h3, [d.dataset ++ "@" ++ label] ++ suf, ?_, ?_⟩
            · rw [h4]
              simp
            · intro s hs
              rcases List.mem_append.mp hs with hs2 | hs2
              · simpa using hs2
              · simpa using h5 s hs2
          · have hlook : alookup k (stAppend st k0 d (d.dataset ++ "@" ++ label)).datasets =
                some dd := by
              unfold stAppend
              dsimp only
              rw [alookup_aset, if_neg hk]
              exact hdd
            exact hih.2.2.2 k dd hlook
        · rw [if_neg hex]
          refine ⟨rfl, rfl, rfl, ?_⟩
          intro k dd hdd
          exact ⟨dd, hdd, rfl, rfl, [], by simp, by simp⟩

/-- **C10.** A sync transfer mutates no in-memory state: given the
source entity is registered, the rebuilt target specification parses,
and the destination pool is already registered (all guaranteed in a
run, since the destination was resolved at startup), `sync` leaves the
per-host topology caches and the pool registry unchanged, and every
registered dataset entity — in particular the source and destination
snapshot lists — keeps its value (the only possible state change is
memoising the freshly created target entity under a new key); and
within a run only `createsnapshots` touches snapshot lists, its only
mutation being the appending of the newly created `<dataset>@<label>`
name to the affected source datasets. -/
theorem sync_frame (w : World) (dst : Destination) (srcKey : String) (st : St)
    (srcds : ZfsDataset) (h n pp : String) (pl : Zfspool)
    (Hs : alookup srcKey st.datasets = some srcds)
    (Hp : parseSpec (targetpathSpec dst srcds) = some (some h, n, pp))
    (Hpl : alookup (h ++ ":" ++ n) st.pools = some pl) :
    ((sync w dst srcKey st).st.hostDatasets = st.hostDatasets
      ∧ (sync w dst srcKey st).st.hostSnapshots = st.hostSnapshots
      ∧ (sync w dst srcKey st).st.pools = st.pools
      ∧ ∀ k dd, alookup k st.datasets = some dd →
          alookup k (sync w dst srcKey st).st.datasets = some dd)
    ∧ (∀ (src : Source) (label : String),
        (createsnapshots w src label st).st.hostDatasets = st.hostDatasets
        ∧ (createsnapshots w src label st).st.hostSnapshots = st.hostSnapshots
        ∧ (createsnapshots w src label st).st.pools = st.pools
        ∧ ∀ k dd, alookup k st.datasets = some dd →
            ∃ dd', alookup k (createsnapshots w src label st).st.datasets = some dd' ∧
              dd'.pool = dd.pool ∧ dd'.path = dd.path ∧
              ∃ suf, dd'.snapshots = dd.snapshots ++ suf ∧
                ∀ s ∈ suf, s = dd.dataset ++ "@" ++ label) := by
  constructor
  · have hc := targetpath_cases w dst srcds st h n pp pl Hp Hpl
    cases halo : alookup (targetpathSpec dst srcds) st.datasets with
    | some t =>
      have hst := sync_st w dst srcKey st srcds t st Hs (hc.1 t halo)
      rw [hst]
      exact ⟨rfl, rfl, rfl, fun k dd hdd => hdd⟩
    | none =>
      have hst := sync_st w dst srcKey st srcds (mkZfsDataset pl pp)
        { st with datasets := aset (targetpathSpec dst srcds) (mkZfsDataset pl pp) st.datasets }
        Hs (hc.2 halo)
      rw [hst]
      refine ⟨rfl, rfl, rfl, ?_⟩
      intro k dd hdd
      show alookup k (aset (targetpathSpec dst srcds) (mkZfsDataset pl pp) st.datasets) = some dd
      rw [alookup_aset]
      by_cases hk : targetpathSpec dst srcds = k
      · rw [← hk] at hdd
        rw [halo] at hdd
        exact absurd hdd (by simp)
      · rw [if_neg hk]
        exact hdd
  · intro src label
    exact csLoop_frame w label (sortByStr src.datasets) st

/-- Instantiation of C10 on the `w1` scenario: after the incremental
transfer, the topology caches and the source dataset's snapshot list
are exactly as fetched. -/
theorem sync_frame_witness :
    (sync w1 fix1.1 "tank/d" fix1.2.2).st.hostSnapshots = fix1.2.2.hostSnapshots
    ∧ (sync w1 fix1.1 "tank/d" fix1.2.2).st.pools = fix1.2.2.pools
    ∧ alookup "tank/d" (sync w1 fix1.1 "tank/d" fix1.2.2).st.datasets = some srcds1 := by
  have h := (sync_frame w1 fix1.1 "tank/d" fix1.2.2 srcds1 "localhost" "pool2" "/d" pl10
    (by decide) (by decide) (by rfl)).1
  exact ⟨h.2.1, h.2.2.1, h.2.2.2 "tank/d" srcds1 (by decide)⟩

theorem string_append_cancel_left (a b c : String) (h : a ++ b = a ++ c) : b = c := by
  obtain ⟨al⟩ := a
  obtain ⟨bl⟩ := b
  obtain ⟨cl⟩ := c
  have h2 : al ++ bl = al ++ cl := congrArg String.data h
  exact congrArg String.mk (List.append_cancel_left h2)

/-- Resolving a well-formed listing entry against its own pool always
succeeds, yields an entity whose qualified string is the host-tagged
entry, and at most memoises that entity under the entry key. -/
theorem getZfsDataset_listing (w : World) (p : Zfspool) (s : String) (st : St)
    (hs : specOfListing p s = true)
    (hreg : ∀ d0, alookup s st.datasets = some d0 → d0.str = p.host ++ ":" ++ s) :
    ∃ d st', getZfsDataset w s (some p) st = .ok (d, st') ∧
      d.str = p.host ++ ":" ++ s ∧
      (∀ k d0, alookup k st'.datasets = some d0 →
        alookup k st.datasets = some d0 ∨ (k = s ∧ d0.str = p.host ++ ":" ++ k)) := by
  unfold specOfListing at hs
  cases hp : parseSpec s with
  | none => rw [hp] at hs; simp at hs
  | some t =>
    obtain ⟨host?, pn, pa⟩ := t
    rw [hp] at hs
    cases host? with
    | some hh => simp at hs
    | none =>
      simp only [Bool.and_eq_true, beq_iff_eq] at hs
      obtain ⟨hpn, hcat⟩ := hs
      unfold getZfsDataset
      rw [hp]
      dsimp only
      rw [if_neg (by simp)]
      rw [if_neg (by simp [hpn])]
      unfold finishGet
      cases halo : alookup s st.datasets with
      | some d0 =>
        refine ⟨d0, st, rfl, hreg d0 halo, ?_⟩
        intro k dd hdd
        exact Or.inl hdd
      | none =>
        refine ⟨mkZfsDataset p pa, _, rfl, ?_, ?_⟩
        · show p.host ++ ":" ++ p.name ++ pa = p.host ++ ":" ++ s
          rw [hcat]
          rw [String.append_assoc]
        · intro k dd hdd
          dsimp only at hdd
          rw [alookup_aset] at hdd
          by_cases hk : s = k
          · rw [if_pos hk] at hdd
            injection hdd with h2
            refine Or.inr ⟨hk.symm, ?_⟩
            rw [← h2, ← hk]
            show p.host ++ ":" ++ p.name ++ pa = p.host ++ ":" ++ s
            rw [hcat]
            rw [String.append_assoc]
          · rw [if_neg hk] at hdd
            exact Or.inl hdd

/-- Elements of `addDS`. -/
theorem addDS_mem (acc : List (String × String)) (k : String) (d : ZfsDataset) :
    ∀ kv ∈ addDS acc k d, kv ∈ acc ∨ kv = (k, d.str) := by
  intro kv hkv
  unfold addDS at hkv
  by_cases h : d.str ∈ acc.map Prod.snd
  · rw [if_pos h] at hkv
    exact Or.inl hkv
  · rw [if_neg h] at hkv
    rcases List.mem_append.mp hkv with h2 | h2
    · exact Or.inl h2
    · exact Or.inr (by simpa using h2)

/-- Keys of `addDS` under the host-tag invariant: the set deduplicates
only genuine repetitions, since the qualified string determines the
key. -/
theorem addDS_mem_fst (hst : String) (acc : List (String × String)) (k : String)
    (d : ZfsDataset)
    (hinv : ∀ kv ∈ acc, kv.2 = hst ++ ":" ++ kv.1)
    (hd : d.str = hst ++ ":" ++ k) :
    ∀ k', k' ∈ (addDS acc k d).map Prod.fst ↔ k' ∈ acc.map Prod.fst ∨ k' = k := by
  intro k'
  unfold addDS
  by_cases h : d.str ∈ acc.map Prod.snd
  · rw [if_pos h]
    obtain ⟨kv, hkv, hkv2⟩ := List.mem_map.mp h
    have : kv.1 = k := by
      have h3 := hinv kv hkv
      rw [hkv2, hd] at h3
      exact (string_append_cancel_left _ _ _ h3).symm
    constructor
    · intro h2
      exact Or.inl h2
    · intro h2
      rcases h2 with h2 | h2
      · exact h2
      · subst h2
        rw [← this]
        exact List.mem_map.mpr ⟨kv, hkv, rfl⟩
  · rw [if_neg h]
    simp [List.mem_map]

/-- The glob branch of `Source.__init__` succeeds on a well-formed
listing and collects exactly the matching entries. -/
theorem globExpand_mem (w : World) (p : Zfspool) (pat : String) :
    ∀ (ds : List String) (acc : List (String × String)) (st : St),
      (∀ s ∈ ds, specOfListing p s = true) →
      (∀ s ∈ ds, ∀ d0, alookup s st.datasets = some d0 → d0.str = p.host ++ ":" ++ s) →
      (∀ kv ∈ acc, kv.2 = p.host ++ ":" ++ kv.1) →
      ∃ res st', globExpand w p pat ds acc st = .ok (res, st') ∧
        (∀ kv ∈ res, kv.2 = p.host ++ ":" ++ kv.1) ∧
        (∀ k, k ∈ res.map Prod.fst ↔
          k ∈ acc.map Prod.fst ∨ (k ∈ ds ∧ fnmatch k pat = true)) := by
  intro ds
  induction ds with
  | nil =>
    intro acc st _ _ hacc
    refine ⟨acc, st, rfl, hacc, ?_⟩
    intro k
    simp
  | cons s0 rest ih =>
    intro acc st hwf hreg hacc
    rw [globExpand]
    by_cases hm : fnmatch s0 pat = true
    · rw [if_pos hm]
      obtain ⟨d, st1, hcall, hstr, hpres⟩ :=
        getZfsDataset_listing w p s0 st (hwf s0 (by simp))
          (hreg s0 (by simp))
      rw [hcall]
      have hreg1 : ∀ s ∈ rest, ∀ d0, alookup s st1.datasets = some d0 →
          d0.str = p.host ++ ":" ++ s := by
        intro s hsr d0 hd0
        rcases hpres s d0 hd0 with h2 | h2
        · exact hreg s (by simp [hsr]) d0 h2
        · exact h2.2
      have hacc1 : ∀ kv ∈ addDS acc s0 d, kv.2 = p.host ++ ":" ++ kv.1 := by
        intro kv hkv
        rcases addDS_mem acc s0 d kv hkv with h2 | h2
        · exact hacc kv h2
        · rw [h2]
          exact hstr
      obtain ⟨res, st', hfold, hres, hmem⟩ :=
        ih (addDS acc s0 d) st1 (fun s hsr => hwf s (by simp [hsr])) hreg1 hacc1
      refine ⟨res, st', hfold, hres, ?_⟩
      intro k
      rw [hmem k, addDS_mem_fst p.host acc s0 d hacc hstr k]
      constructor
      · intro h2
        rcases h2 with (h2 | h2) | h2
        · exact Or.inl h2
        · subst h2
          exact Or.inr ⟨by simp, hm⟩
        · exact Or.inr ⟨by simp [h2.1], h2.2⟩
      · intro h2
        rcases h2 with h2 | h2
        · exact Or.inl (Or.inl h2)
        · rcases List.mem_cons.mp h2.1 with h3 | h3
          · exact Or.inl (Or.inr h3)
          · exact Or.inr ⟨h3, h2.2⟩
    · rw [if_neg hm]
      obtain ⟨res, st', hfold, hres, hmem⟩ :=
        ih acc st (fun s hsr => hwf s (by simp [hsr]))
          (fun s hsr => hreg s (by simp [hsr])) hacc
      refine ⟨res, st', hfold, hres, ?_⟩
      intro k
      rw [hmem k]
      constructor
      · intro h2
        rcases h2 with h2 | h2
        · exact Or.inl h2
        · exact Or.inr ⟨by simp [h2.1], h2.2⟩
      · intro h2
        rcases h2 with h2 | h2
        · exact Or.inl h2
        · rcases List.mem_cons.mp h2.1 with h3 | h3
          · subst h3
            exact absurd h2.2 hm
          · exact Or.inr ⟨h3, h2.2⟩

/-- **C7.** With glob enabled (and recursion off), Source expansion
yields exactly the set of names in the resolved pool's listing that
match the root's full name as a shell-style glob pattern, matched
against the entire path (the pool-name portion being fixed by
resolution).  Hypotheses: the listing entries are well-formed hostless
specifications of the pool, and any entity already memoised under a
listing key is the entity of that name (both invariants hold in a run,
where the topology comes from `zfs list`). -/
theorem source_glob_expansion (w : World) (spec : String) (st : St)
    (root : ZfsDataset) (st1 : St) (src : Source) (st' : St)
    (H1 : getZfsDataset w spec none st = .ok (root, st1))
    (H : mkSource w spec true false st = .ok (src, st'))
    (Hwf : ∀ s ∈ root.pool.datasets, specOfListing root.pool s = true)
    (Hreg : ∀ s ∈ root.pool.datasets, ((alookup s st1.datasets).all
      (fun d0 => d0.str == root.pool.host ++ ":" ++ s)) = true) :
    src.root = root ∧
    ∀ s, s ∈ src.datasets.map Prod.fst ↔
      (s ∈ root.pool.datasets ∧ fnmatch s root.dataset = true) := by
  unfold mkSource at H
  rw [H1] at H
  dsimp only at H
  rw [if_pos rfl] at H
  obtain ⟨res, st2, hfold, hres, hmem⟩ :=
    globExpand_mem w root.pool root.dataset root.pool.datasets [] st1 Hwf
      (by
        intro s hsr d0 hd0
        have h2 := Hreg s hsr
        rw [hd0] at h2
        simpa [Option.all] using h2)
      (by simp)
  rw [hfold] at H
  dsimp only at H
  rw [if_neg (by simp)] at H
  injection H with hpair
  injection hpair with hsrc hst
  subst hsrc
  subst hst
  refine ⟨rfl, ?_⟩
  intro s
  rw [hmem s]
  simp

/-- Instantiation of C7: glob pattern `tank/a*` over the pool listing
`{tank/a, tank/ab, tank/b}` yields exactly `{tank/a, tank/ab}`. -/
theorem source_glob_expansion_witness :
    (∀ s, s ∈ fix7.2.1.datasets.map Prod.fst ↔
      (s ∈ fix7.2.1.root.pool.datasets ∧ fnmatch s fix7.2.1.root.dataset = true))
    ∧ fix7.2.1.datasets.map Prod.fst = ["tank/a", "tank/ab"]
    ∧ fix7.2.1.root.pool.datasets = ["tank/a", "tank/ab", "tank/b"]
    ∧ fix7.2.1.root.dataset = "tank/a*" := by
  refine ⟨?_, by rfl, by rfl, by rfl⟩
  have h := source_glob_expansion w7 "tank/a*" stD7 root7.1 root7.2 fix7.2.1 fix7.2.2
    (by rfl) (by rfl) (by decide) (by decide)
  intro s
  rw [h.2 s, h.1]

end Zfssync
